import Mathlib

/-!
Verification development for the iRacing stint-management application
(`src/streamlit_app.py`).  The Python source is a single Streamlit page;
we embed its data model and the handlers the claims are about:

* the default-team factory `get_default_team_structure`,
* the MongoDB gateway `load_data` / `save_data` (the store is modelled as
  `Option StoreDoc`: `none` = no `main_database` record yet),
* the availability-save handler with its reconcile loop (lines 204-229),
* the schedule-save handler with its diff-based merge loop (lines 269-284),
* the team create / delete / start-hour handlers,
* the summary section (`value_counts` and the alert loop, lines 286-313).

Pandas dataframes of pilot rows become lists of `PilotRecord`; the per-hour
boolean columns (string keys `"0"`, `"1"`, ...) become an association list
`hourly : List (Nat × Bool)`.  A lookup of an absent hour index is taken to
be `false`, matching the eligible-pilot branch of the source (line 250),
where a missing hour column yields no eligible pilots.  Row lookup
`df[df['Piloto'] == name]` followed by `.iloc[0]` becomes `List.find?`.
In-place mutation of the `horario` list becomes `List.set`.
-/

/-- The sentinel pilot name the source uses for an unassigned slot. -/
def sinAsignar : String := "Sin Asignar"

/-- One row of the `horario` table: assigned pilot and free-text comment. -/
structure StintSlot where
  pilot : String
  comment : String
deriving DecidableEq, Repr

/-- Default slot used for out-of-range `getD` reads. -/
def defaultSlot : StintSlot := ⟨sinAsignar, ""⟩

/-- One row of the pilots table (`Piloto`, `Quiere Empezar`, `Quiere Terminar`,
`Horas Límite (Opcional)`, and the per-hour boolean columns). -/
structure PilotRecord where
  name : String
  wantsToStart : Bool
  wantsToFinish : Bool
  cap : Nat
  hourly : List (Nat × Bool)
deriving DecidableEq, Repr

/-- The `race_config` sub-document: `start_hour` and `duration`. -/
structure RaceConfig where
  startHour : Nat
  duration : Nat
deriving DecidableEq, Repr

/-- One team's document: `race_config`, `pilots`, `horario`. -/
structure Team where
  raceConfig : RaceConfig
  pilots : List PilotRecord
  horario : List StintSlot
deriving DecidableEq, Repr

/-- The whole multi-team document: team name to team, in insertion order
(Python dicts preserve insertion order). -/
abbrev StoreDoc := List (String × Team)

/-- Events a handler performs against the MongoDB store, in program order. -/
inductive StoreEvent where
  | load : StoreEvent
  | save : StoreEvent
deriving DecidableEq, Repr

/-- One row of the alert loop's output: the warning names the pilot, the cap
(`Horas Límite`), and the actual number of assigned stints. -/
structure Alert where
  pilot : String
  cap : Nat
  actual : Nat
deriving DecidableEq, Repr

/-- Embeds `get_default_team_structure` (source lines 24-39).  The
`team_name` parameter of the source is unused in the returned structure and
is dropped.  The four default pilots all have every hour column `True`,
`Piloto 2` wants to start, `Piloto 3` wants to finish, caps are 0, and the
`horario` is `duration` unassigned rows with empty comments. -/
def get_default_team_structure (duration : Nat) : Team :=
  { raceConfig := { startHour := 14, duration := duration },
    pilots :=
      [ { name := "Piloto 1", wantsToStart := false, wantsToFinish := false,
          cap := 0, hourly := (List.range duration).map (fun h => (h, true)) },
        { name := "Piloto 2", wantsToStart := true, wantsToFinish := false,
          cap := 0, hourly := (List.range duration).map (fun h => (h, true)) },
        { name := "Piloto 3", wantsToStart := false, wantsToFinish := true,
          cap := 0, hourly := (List.range duration).map (fun h => (h, true)) },
        { name := "Piloto 4", wantsToStart := false, wantsToFinish := false,
          cap := 0, hourly := (List.range duration).map (fun h => (h, true)) } ],
    horario := List.replicate duration defaultSlot }

/-- Embeds `load_data` (source lines 46-54): if the store has no
`main_database` record, insert a default single-team document and return it;
otherwise return the stored document.  Returns the loaded document together
with the store state after the call. -/
def load_data (store : Option StoreDoc) : StoreDoc × Option StoreDoc :=
  match store with
  | none =>
      let d : StoreDoc := [("Equipo por Defecto", get_default_team_structure 24)]
      (d, some d)
  | some d => (d, some d)

/-- Embeds `save_data` (source lines 56-59): upsert of the whole document. -/
def save_data (_store : Option StoreDoc) (d : StoreDoc) : Option StoreDoc :=
  some d

/-- Embeds the `disponible` computation of the reconcile loop (source lines
216-219): start flag at hour 0, finish flag at the last hour, otherwise the
hour column. -/
def disponible (r : PilotRecord) (i d : Nat) : Bool :=
  if i = 0 then r.wantsToStart
  else if i = d - 1 then r.wantsToFinish
  else ((r.hourly.lookup i).getD false)

/-- Modelled from the spec: `effectiveAvailability(pilot, hourIndex,
durationHours)` returns `wantsToStart` if hourIndex is 0, `wantsToFinish` if
hourIndex is durationHours-1, else `hourlyAvailability[hourIndex]` with
default false if missing.  Stated from the spec's words in order to compare
with the source's `disponible` and eligible-pilot filter. -/
def effectiveAvailabilitySpec (r : PilotRecord) (i d : Nat) : Bool :=
  if i = 0 then r.wantsToStart
  else if i = d - 1 then r.wantsToFinish
  else ((r.hourly.lookup i).getD false)

/-- Embeds the eligible-pilot filter of the stint-assignment section (source
lines 245-253): filter the edited pilots table by the start flag at hour 0,
the finish flag at the last hour, and the hour column otherwise, keeping the
table's row order.  A pilot row without the hour key is filtered out, as a
missing hour column yields no eligible pilots in the source. -/
def eligiblePilots (i : Nat) (pilots : List PilotRecord) (d : Nat) : List String :=
  if i = 0 then (pilots.filter (fun r => r.wantsToStart)).map (fun r => r.name)
  else if i = d - 1 then (pilots.filter (fun r => r.wantsToFinish)).map (fun r => r.name)
  else (pilots.filter (fun r => (r.hourly.lookup i).getD false)).map (fun r => r.name)

/-- The action of one reconcile-loop iteration on its own slot, written as a
pure per-slot function.  Used only to state characterization theorems about
the loop `reconcile` below. -/
def reconcileSlot (p : List PilotRecord) (d i : Nat) (slot : StintSlot) : StintSlot :=
  if slot.pilot = sinAsignar then slot
  else
    match p.find? (fun r => r.name = slot.pilot) with
    | none => slot
    | some r => if disponible r i d then slot else { slot with pilot := sinAsignar }

/-- Embeds one iteration of the reconcile loop (source lines 211-222): read
slot `i`; skip it if unassigned; look up the assigned pilot's row
(`df_to_save[df_to_save['Piloto'] == piloto_asignado]`, first row); if no
row matches, the source does nothing; otherwise compute `disponible` and,
when it is false, overwrite the slot's pilot with the sentinel. -/
def reconcileStep (p : List PilotRecord) (d : Nat) (h : List StintSlot) (i : Nat) :
    List StintSlot :=
  let slot := h.getD i defaultSlot
  if slot.pilot = sinAsignar then h
  else
    match p.find? (fun r => r.name = slot.pilot) with
    | none => h
    | some r =>
        if disponible r i d then h
        else h.set i { slot with pilot := sinAsignar }

/-- Runs the reconcile-loop iterations `0, 1, ..., n-1` in program order. -/
def reconcileLoop (p : List PilotRecord) (d : Nat) : Nat → List StintSlot → List StintSlot
  | 0, h => h
  | n + 1, h => reconcileStep p d (reconcileLoop p d n h) n

/-- Embeds the whole reconcile loop of the availability-save handler (source
lines 211-222): `for i in range(race_duration)` over the freshly loaded
`horario`. -/
def reconcile (p : List PilotRecord) (s : List StintSlot) (d : Nat) : List StintSlot :=
  reconcileLoop p d d s

/-- The action of one schedule-save merge iteration on its own slot, written
as a pure per-slot function of the fresh slot.  Used only to state
characterization theorems about the loop `schedule_save_merge` below. -/
def mergeSlot (newA newC : List String) (sess : List StintSlot) (i : Nat)
    (slot : StintSlot) : StintSlot :=
  { pilot :=
      if newA.getD i "" ≠ (sess.getD i defaultSlot).pilot then newA.getD i ""
      else slot.pilot,
    comment :=
      if newC.getD i "" ≠ (sess.getD i defaultSlot).comment then newC.getD i ""
      else slot.comment }

/-- Embeds one iteration of the schedule-save merge loop (source lines
273-278): if the UI pilot selection at `i` differs from the session's
previously loaded schedule (`horario_df`), write it into the freshly loaded
schedule; likewise for the comment. -/
def mergeStep (newA newC : List String) (sess : List StintSlot) (h : List StintSlot)
    (i : Nat) : List StintSlot :=
  let h1 :=
    if newA.getD i "" ≠ (sess.getD i defaultSlot).pilot then
      h.set i { h.getD i defaultSlot with pilot := newA.getD i "" }
    else h
  if newC.getD i "" ≠ (sess.getD i defaultSlot).comment then
    h1.set i { h1.getD i defaultSlot with comment := newC.getD i "" }
  else h1

/-- Runs the merge-loop iterations `0, 1, ..., n-1` in program order. -/
def mergeLoop (newA newC : List String) (sess : List StintSlot) :
    Nat → List StintSlot → List StintSlot
  | 0, h => h
  | n + 1, h => mergeStep newA newC sess (mergeLoop newA newC sess n h) n

/-- Embeds the whole merge loop of the schedule-save handler (source lines
273-278), applied to the freshly loaded `horario`. -/
def schedule_save_merge (newA newC : List String) (sess fresh : List StintSlot)
    (d : Nat) : List StintSlot :=
  mergeLoop newA newC sess d fresh

/-- Replaces the value stored under key `name`, keeping every other entry and
the entry order: the Python handlers mutate `db[team]` in place. -/
def setTeam (db : StoreDoc) (name : String) (t : Team) : StoreDoc :=
  db.map (fun kv => if kv.1 = name then (kv.1, t) else kv)

/-- True when every `save` in the trace has some earlier `load`
(`seenLoad` records whether a load has already occurred). -/
def savesPrecededAux (seenLoad : Bool) : List StoreEvent → Bool
  | [] => true
  | StoreEvent.load :: rest => savesPrecededAux true rest
  | StoreEvent.save :: rest => seenLoad && savesPrecededAux seenLoad rest

/-- True when every `save` in the trace is preceded by a `load`. -/
def savesPreceded (tr : List StoreEvent) : Bool :=
  savesPrecededAux false tr

/-- Embeds the create-team handler (source lines 104-116): if the name is
non-empty and not already a key of the session document, add the default
team, save the session document, then re-load.  Otherwise show an error and
change nothing.  Returns (store, session document, store-event trace). -/
def create_team (store : Option StoreDoc) (db : StoreDoc) (name : String)
    (duration : Nat) : Option StoreDoc × StoreDoc × List StoreEvent :=
  if name ≠ "" ∧ (db.lookup name).isNone then
    let db1 := db ++ [(name, get_default_team_structure duration)]
    let store1 := save_data store db1
    let p := load_data store1
    (p.2, p.1, [StoreEvent.save, StoreEvent.load])
  else (store, db, [])

/-- Embeds the delete-team handler (source lines 119-128): if a team is
selected (a non-empty name) and the session document has more than one team,
delete it from the session document, save, then re-load.  Otherwise show an
error and change nothing. -/
def delete_team (store : Option StoreDoc) (db : StoreDoc) (name : Option String) :
    Option StoreDoc × StoreDoc × List StoreEvent :=
  match name with
  | none => (store, db, [])
  | some n =>
      if n ≠ "" ∧ db.length > 1 then
        let db1 := db.eraseP (fun kv => kv.1 = n)
        let store1 := save_data store db1
        let p := load_data store1
        (p.2, p.1, [StoreEvent.save, StoreEvent.load])
      else (store, db, [])

/-- Embeds the start-hour update (source lines 168-176): if the time input's
hour differs from the session team's `start_hour`, write the new hour into
the session document and save it; no load happens in this handler.  When the
selected team is somehow absent from the session document the source would
have failed earlier, so nothing happens. -/
def update_start_hour (store : Option StoreDoc) (db : StoreDoc) (team : String)
    (newHour : Nat) : Option StoreDoc × StoreDoc × List StoreEvent :=
  match db.lookup team with
  | none => (store, db, [])
  | some t =>
      if newHour ≠ t.raceConfig.startHour then
        let db1 := setTeam db team
          { t with raceConfig := { t.raceConfig with startHour := newHour } }
        (save_data store db1, db1, [StoreEvent.save])
      else (store, db, [])

/-- Embeds the availability-save handler (source lines 204-229): re-load the
document, reconcile the freshly loaded `horario` against the edited pilots
table, store the edited pilots and the reconciled `horario`, save, and adopt
the saved document as the session document.  If the selected team is absent
from the fresh document the source raises a `KeyError` before saving, so
only the load happens. -/
def availability_save (store : Option StoreDoc) (team : String)
    (edited : List PilotRecord) (d : Nat) :
    Option StoreDoc × StoreDoc × List StoreEvent :=
  let p := load_data store
  match p.1.lookup team with
  | none => (p.2, p.1, [StoreEvent.load])
  | some t =>
      let newHorario := reconcile edited t.horario d
      let latest1 := setTeam p.1 team { t with pilots := edited, horario := newHorario }
      (save_data p.2 latest1, latest1, [StoreEvent.load, StoreEvent.save])

/-- Embeds the schedule-save handler (source lines 269-284): re-load the
document, merge the UI selections into the freshly loaded `horario` slot by
slot (only where they differ from the session's previously loaded
`horario_df`), save, and adopt the saved document as the session document.
If the selected team is absent from the fresh document the source raises a
`KeyError` before saving, so only the load happens. -/
def schedule_save (store : Option StoreDoc) (team : String)
    (newA newC : List String) (sessionHorario : List StintSlot) (d : Nat) :
    Option StoreDoc × StoreDoc × List StoreEvent :=
  let p := load_data store
  match p.1.lookup team with
  | none => (p.2, p.1, [StoreEvent.load])
  | some t =>
      let merged := schedule_save_merge newA newC sessionHorario t.horario d
      let latest1 := setTeam p.1 team { t with horario := merged }
      (save_data p.2 latest1, latest1, [StoreEvent.load, StoreEvent.save])

/-- Embeds `pd.Series(nuevas_asignaciones).value_counts().drop("Sin Asignar")`
(source line 288): the distinct assigned names other than the sentinel, each
with its occurrence count.  `value_counts` orders rows by descending count
with unspecified tie order; no stated property depends on the row order, so
the embedding keeps first-occurrence order. -/
def stintCounts (assignments : List String) : List (String × Nat) :=
  ((assignments.dedup).filter (fun n => n ≠ sinAsignar)).map
    (fun n => (n, assignments.count n))

/-- The alert decision for one summary row (source lines 302-309): look up
the pilot's row in the edited pilots table (first match); if it exists and
`0 < limite < stints`, emit the warning naming the pilot, the cap, and the
actual count; otherwise nothing. -/
def alertOf (pilots : List PilotRecord) (nc : String × Nat) : Option Alert :=
  match pilots.find? (fun r => r.name = nc.1) with
  | none => none
  | some r => if 0 < r.cap ∧ r.cap < nc.2 then some ⟨nc.1, r.cap, nc.2⟩ else none

/-- Embeds the alert loop of the summary section (source lines 300-310): one
pass over the summary rows, emitting at most one warning per row. -/
def stintAlerts (assignments : List String) (pilots : List PilotRecord) : List Alert :=
  (stintCounts assignments).filterMap (alertOf pilots)

/-! ### Helper lemmas about indexed list access -/

theorem getD_set_self {α : Type} (l : List α) (i : Nat) (x d : α) (h : i < l.length) :
    (l.set i x).getD i d = x := by
  rw [List.getD_eq_getElem?_getD, List.getElem?_set_self h]
  rfl

theorem getD_set_ne {α : Type} (l : List α) {i j : Nat} (x d : α) (h : i ≠ j) :
    (l.set i x).getD j d = l.getD j d := by
  rw [List.getD_eq_getElem?_getD, List.getD_eq_getElem?_getD, List.getElem?_set_ne h]

theorem getD_of_length_le {α : Type} (l : List α) {i : Nat} (d : α) (h : l.length ≤ i) :
    l.getD i d = d := by
  rw [List.getD_eq_getElem?_getD, List.getElem?_eq_none h]
  rfl

theorem ext_getD {α : Type} (d : α) : ∀ (l₁ l₂ : List α), l₁.length = l₂.length →
    (∀ i, l₁.getD i d = l₂.getD i d) → l₁ = l₂
  | [], [], _, _ => rfl
  | [], _ :: _, h, _ => by simp at h
  | _ :: _, [], h, _ => by simp at h
  | a :: s, b :: t, h, hp => by
    have h0 : a = b := by simpa using hp 0
    have ht : s = t :=
      ext_getD d s t (by simpa using h) (fun i => by simpa using hp (i + 1))
    rw [h0, ht]

/-! ### Characterization of the reconcile loop -/

theorem reconcileStep_cases (p : List PilotRecord) (d : Nat) (h : List StintSlot) (i : Nat) :
    reconcileStep p d h i = h ∨
    reconcileStep p d h i = h.set i { h.getD i defaultSlot with pilot := sinAsignar } := by
  simp only [reconcileStep]
  by_cases h1 : (h.getD i defaultSlot).pilot = sinAsignar
  · rw [if_pos h1]
    exact Or.inl rfl
  · rw [if_neg h1]
    rcases hf : p.find? (fun r => r.name = (h.getD i defaultSlot).pilot) with _ | r
    · simp only [hf]
      exact Or.inl trivial
    · simp only [hf]
      by_cases h2 : disponible r i d
      · rw [if_pos h2]
        exact Or.inl rfl
      · rw [if_neg h2]
        exact Or.inr rfl

theorem reconcileStep_length (p : List PilotRecord) (d : Nat) (h : List StintSlot)
    (i : Nat) : (reconcileStep p d h i).length = h.length := by
  rcases reconcileStep_cases p d h i with he | he <;> rw [he]
  exact List.length_set ..

theorem reconcileStep_getD_ne (p : List PilotRecord) (d : Nat) (h : List StintSlot)
    {i j : Nat} (hij : j ≠ i) :
    (reconcileStep p d h i).getD j defaultSlot = h.getD j defaultSlot := by
  rcases reconcileStep_cases p d h i with he | he <;> rw [he]
  exact getD_set_ne _ _ _ (fun hc => hij hc.symm)

theorem reconcileStep_getD_self (p : List PilotRecord) (d : Nat) (h : List StintSlot)
    (i : Nat) :
    (reconcileStep p d h i).getD i defaultSlot =
      reconcileSlot p d i (h.getD i defaultSlot) := by
  simp only [reconcileStep, reconcileSlot]
  by_cases h1 : (h.getD i defaultSlot).pilot = sinAsignar
  · rw [if_pos h1, if_pos h1]
  · rw [if_neg h1, if_neg h1]
    rcases hf : p.find? (fun r => r.name = (h.getD i defaultSlot).pilot) with _ | r
    · simp only [hf]
    · simp only [hf]
      by_cases h2 : disponible r i d
      · rw [if_pos h2, if_pos h2]
      · rw [if_neg h2, if_neg h2]
        have hlen : i < h.length := by
          by_contra hge
          push_neg at hge
          rw [getD_of_length_le h defaultSlot hge] at h1
          exact h1 rfl
        exact getD_set_self _ _ _ _ hlen

theorem reconcileLoop_length (p : List PilotRecord) (d : Nat) :
    ∀ n h, (reconcileLoop p d n h).length = h.length
  | 0, _ => rfl
  | n + 1, h => (reconcileStep_length ..).trans (reconcileLoop_length p d n h)

theorem reconcileLoop_getD (p : List PilotRecord) (d : Nat) :
    ∀ n h i, (reconcileLoop p d n h).getD i defaultSlot =
      if i < n then reconcileSlot p d i (h.getD i defaultSlot) else h.getD i defaultSlot
  | 0, h, i => by
    rw [if_neg (Nat.not_lt_zero i)]
    rfl
  | n + 1, h, i => by
    have IH := reconcileLoop_getD p d n h
    show (reconcileStep p d (reconcileLoop p d n h) n).getD i defaultSlot = _
    rcases Nat.lt_trichotomy i n with hlt | heq | hgt
    · rw [reconcileStep_getD_ne p d _ (Nat.ne_of_lt hlt), IH i,
        if_pos hlt, if_pos (Nat.lt_succ_of_lt hlt)]
    · subst heq
      rw [reconcileStep_getD_self, IH i, if_neg (Nat.lt_irrefl i),
        if_pos (Nat.lt_succ_self i)]
    · rw [reconcileStep_getD_ne p d _ (Ne.symm (Nat.ne_of_lt hgt)), IH i,
        if_neg (Nat.not_lt.mpr (Nat.le_of_lt hgt)),
        if_neg (Nat.not_lt.mpr hgt)]

theorem reconcile_length (p : List PilotRecord) (s : List StintSlot) (d : Nat) :
    (reconcile p s d).length = s.length :=
  reconcileLoop_length p d d s

theorem reconcile_getD (p : List PilotRecord) (s : List StintSlot) (d i : Nat) :
    (reconcile p s d).getD i defaultSlot =
      if i < d then reconcileSlot p d i (s.getD i defaultSlot) else s.getD i defaultSlot :=
  reconcileLoop_getD p d d s i

theorem reconcileSlot_of_sin (p : List PilotRecord) (d i : Nat) (s : StintSlot)
    (h1 : s.pilot = sinAsignar) : reconcileSlot p d i s = s := by
  simp only [reconcileSlot]
  rw [if_pos h1]

theorem reconcileSlot_of_none (p : List PilotRecord) (d i : Nat) (s : StintSlot)
    (h1 : s.pilot ≠ sinAsignar) (hf : p.find? (fun r => r.name = s.pilot) = none) :
    reconcileSlot p d i s = s := by
  simp only [reconcileSlot]
  rw [if_neg h1]
  simp only [hf]

theorem reconcileSlot_of_avail (p : List PilotRecord) (d i : Nat) (s : StintSlot)
    (r : PilotRecord) (h1 : s.pilot ≠ sinAsignar)
    (hf : p.find? (fun q => q.name = s.pilot) = some r) (h2 : disponible r i d) :
    reconcileSlot p d i s = s := by
  simp only [reconcileSlot]
  rw [if_neg h1]
  simp only [hf]
  rw [if_pos h2]

theorem reconcileSlot_of_unavail (p : List PilotRecord) (d i : Nat) (s : StintSlot)
    (r : PilotRecord) (h1 : s.pilot ≠ sinAsignar)
    (hf : p.find? (fun q => q.name = s.pilot) = some r) (h2 : ¬ disponible r i d) :
    reconcileSlot p d i s = { s with pilot := sinAsignar } := by
  simp only [reconcileSlot]
  rw [if_neg h1]
  simp only [hf]
  rw [if_neg h2]

theorem reconcileSlot_idem (p : List PilotRecord) (d i : Nat) (s : StintSlot) :
    reconcileSlot p d i (reconcileSlot p d i s) = reconcileSlot p d i s := by
  by_cases h1 : s.pilot = sinAsignar
  · rw [reconcileSlot_of_sin p d i s h1, reconcileSlot_of_sin p d i s h1]
  · rcases hf : p.find? (fun r => r.name = s.pilot) with _ | r
    · rw [reconcileSlot_of_none p d i s h1 hf, reconcileSlot_of_none p d i s h1 hf]
    · by_cases h2 : disponible r i d
      · rw [reconcileSlot_of_avail p d i s r h1 hf h2,
          reconcileSlot_of_avail p d i s r h1 hf h2]
      · rw [reconcileSlot_of_unavail p d i s r h1 hf h2]
        exact reconcileSlot_of_sin p d i _ rfl

/-! ### Characterization of the schedule-save merge loop -/

theorem set_getD_self {α : Type} (l : List α) (i : Nat) (d : α) (hi : i < l.length) :
    l.set i (l.getD i d) = l := by
  apply ext_getD d
  · exact List.length_set ..
  · intro j
    by_cases hij : i = j
    · subst hij
      exact getD_set_self _ _ _ _ hi
    · exact getD_set_ne _ _ _ hij

theorem mergeStep_length (newA newC : List String) (sess h : List StintSlot) (i : Nat) :
    (mergeStep newA newC sess h i).length = h.length := by
  simp only [mergeStep]
  by_cases cC : newC.getD i "" ≠ (sess.getD i defaultSlot).comment <;>
    by_cases cA : newA.getD i "" ≠ (sess.getD i defaultSlot).pilot
  · rw [if_pos cC, if_pos cA]
    simp [List.length_set]
  · rw [if_pos cC, if_neg cA]
    simp [List.length_set]
  · rw [if_neg cC, if_pos cA]
    simp [List.length_set]
  · rw [if_neg cC, if_neg cA]

theorem mergeStep_getD_ne (newA newC : List String) (sess h : List StintSlot)
    {i j : Nat} (hij : j ≠ i) :
    (mergeStep newA newC sess h i).getD j defaultSlot = h.getD j defaultSlot := by
  have hij' : i ≠ j := fun hc => hij hc.symm
  simp only [mergeStep]
  by_cases cC : newC.getD i "" ≠ (sess.getD i defaultSlot).comment <;>
    by_cases cA : newA.getD i "" ≠ (sess.getD i defaultSlot).pilot
  · rw [if_pos cC, if_pos cA, getD_set_ne _ _ _ hij', getD_set_ne _ _ _ hij']
  · rw [if_pos cC, if_neg cA, getD_set_ne _ _ _ hij']
  · rw [if_neg cC, if_pos cA, getD_set_ne _ _ _ hij']
  · rw [if_neg cC, if_neg cA]

theorem mergeStep_set_form (newA newC : List String) (sess h : List StintSlot)
    (i : Nat) (hi : i < h.length) :
    mergeStep newA newC sess h i =
      h.set i (mergeSlot newA newC sess i (h.getD i defaultSlot)) := by
  simp only [mergeStep, mergeSlot]
  by_cases cC : newC.getD i "" ≠ (sess.getD i defaultSlot).comment <;>
    by_cases cA : newA.getD i "" ≠ (sess.getD i defaultSlot).pilot
  · rw [if_pos cC, if_pos cA, if_pos cA, if_pos cC,
      getD_set_self h i _ defaultSlot hi, List.set_set]
  · rw [if_pos cC, if_neg cA, if_neg cA, if_pos cC]
  · rw [if_neg cC, if_pos cA, if_pos cA, if_neg cC]
  · rw [if_neg cC, if_neg cA, if_neg cA, if_neg cC]
    exact (set_getD_self h i defaultSlot hi).symm

theorem mergeStep_getD_self (newA newC : List String) (sess h : List StintSlot)
    (i : Nat) (hi : i < h.length) :
    (mergeStep newA newC sess h i).getD i defaultSlot =
      mergeSlot newA newC sess i (h.getD i defaultSlot) := by
  rw [mergeStep_set_form newA newC sess h i hi, getD_set_self _ _ _ _ hi]

theorem mergeLoop_length (newA newC : List String) (sess : List StintSlot) :
    ∀ n h, (mergeLoop newA newC sess n h).length = h.length
  | 0, _ => rfl
  | n + 1, h => (mergeStep_length ..).trans (mergeLoop_length newA newC sess n h)

theorem mergeLoop_getD (newA newC : List String) (sess : List StintSlot) :
    ∀ n h i, i < h.length →
      (mergeLoop newA newC sess n h).getD i defaultSlot =
        if i < n then mergeSlot newA newC sess i (h.getD i defaultSlot)
        else h.getD i defaultSlot
  | 0, h, i, _ => by
    rw [if_neg (Nat.not_lt_zero i)]
    rfl
  | n + 1, h, i, hi => by
    have IH := mergeLoop_getD newA newC sess n h
    show (mergeStep newA newC sess (mergeLoop newA newC sess n h) n).getD i defaultSlot = _
    rcases Nat.lt_trichotomy i n with hlt | heq | hgt
    · rw [mergeStep_getD_ne newA newC sess _ (Nat.ne_of_lt hlt), IH i hi,
        if_pos hlt, if_pos (Nat.lt_succ_of_lt hlt)]
    · subst heq
      have hi' : i < (mergeLoop newA newC sess i h).length := by
        rw [mergeLoop_length]
        exact hi
      rw [mergeStep_getD_self newA newC sess _ i hi', IH i hi,
        if_neg (Nat.lt_irrefl i), if_pos (Nat.lt_succ_self i)]
    · rw [mergeStep_getD_ne newA newC sess _ (Ne.symm (Nat.ne_of_lt hgt)), IH i hi,
        if_neg (Nat.not_lt.mpr (Nat.le_of_lt hgt)),
        if_neg (Nat.not_lt.mpr hgt)]

theorem schedule_save_merge_length (newA newC : List String) (sess fresh : List StintSlot)
    (d : Nat) : (schedule_save_merge newA newC sess fresh d).length = fresh.length :=
  mergeLoop_length newA newC sess d fresh

/-! ### Claim theorems: reconcile behaviour -/

/-- C3: the reconcile operation is idempotent — applying `reconcile` to its
own output with the same pilot list and duration yields the same schedule as
applying it once. -/
theorem reconcile_idempotent (p : List PilotRecord) (s : List StintSlot) (d : Nat) :
    reconcile p (reconcile p s d) d = reconcile p s d := by
  apply ext_getD defaultSlot
  · rw [reconcile_length, reconcile_length]
  · intro i
    by_cases hi : i < d
    · have hin : (reconcile p s d).getD i defaultSlot
          = reconcileSlot p d i (s.getD i defaultSlot) := by
        rw [reconcile_getD, if_pos hi]
      rw [reconcile_getD, if_pos hi, hin, reconcileSlot_idem]
    · rw [reconcile_getD, if_neg hi]

/-- C1 (counterexample): the claim says a slot whose assigned pilot has no
record in the updated pilot list is reset to the sentinel.  On the code it
is not: in a 3-hour race where the updated pilot list contains only "Bob",
the slot assigned to the deleted pilot "Alex" survives reconciliation
untouched, and "Alex" is not the sentinel. -/
theorem reconcile_missing_pilot_cex :
    reconcile [⟨"Bob", true, true, 0, [(0, true), (1, true), (2, true)]⟩]
        [⟨sinAsignar, ""⟩, ⟨"Alex", "nota"⟩, ⟨sinAsignar, ""⟩] 3 =
      [⟨sinAsignar, ""⟩, ⟨"Alex", "nota"⟩, ⟨sinAsignar, ""⟩] ∧
    "Alex" ≠ sinAsignar := by
  constructor
  · decide
  · decide

/-- C1 (amended): for each hourIndex below durationHours, the reconciled
slot is computed from the old slot alone: a slot assigned to the sentinel is
unchanged; a slot whose pilot has no record in the updated pilot list is
left unchanged (stale names persist); a slot whose pilot's record has
`disponible` true at that index is unchanged; otherwise only the slot's
pilot is replaced by the sentinel, the comment being preserved.  The
schedule keeps its length, and indices at or beyond durationHours are
untouched. -/
theorem reconcile_slotwise (p : List PilotRecord) (s : List StintSlot) (d i : Nat)
    (hi : i < d) :
    ((reconcile p s d).getD i defaultSlot =
      (if (s.getD i defaultSlot).pilot = sinAsignar then s.getD i defaultSlot
       else
         match p.find? (fun r => r.name = (s.getD i defaultSlot).pilot) with
         | none => s.getD i defaultSlot
         | some r =>
             if disponible r i d then s.getD i defaultSlot
             else { s.getD i defaultSlot with pilot := sinAsignar })) ∧
    (reconcile p s d).length = s.length ∧
    (∀ j, d ≤ j → (reconcile p s d).getD j defaultSlot = s.getD j defaultSlot) := by
  refine ⟨?_, reconcile_length p s d, ?_⟩
  · rw [reconcile_getD, if_pos hi]
    rfl
  · intro j hj
    rw [reconcile_getD, if_neg (Nat.not_lt.mpr hj)]

/-- C1 (witness): a pilot whose record exists but is not available at hour 0
of a 1-hour race is cleared from slot 0 with the comment preserved. -/
theorem reconcile_slotwise_witness :
    (reconcile [⟨"Ana", false, false, 0, [(0, true)]⟩] [⟨"Ana", "ok"⟩] 1).getD 0
        defaultSlot = ⟨sinAsignar, "ok"⟩ := by
  have h := (reconcile_slotwise [⟨"Ana", false, false, 0, [(0, true)]⟩]
    [⟨"Ana", "ok"⟩] 1 0 (by decide)).1
  exact h.trans (by decide)

/-- C10: the schedule save is a per-slot merge, not an overwrite.  For each
index below durationHours, the saved slot's pilot is the UI selection when
it differs from the session's previously loaded schedule at that slot, and
otherwise the value from the freshly reloaded schedule; likewise for the
comment.  A slot the user did not touch therefore keeps whatever a
concurrent writer stored. -/
theorem schedule_save_merge_slotwise (newA newC : List String)
    (sess fresh : List StintSlot) (d i : Nat) (hf : fresh.length = d) (hi : i < d) :
    (schedule_save_merge newA newC sess fresh d).getD i defaultSlot =
      { pilot :=
          if newA.getD i "" ≠ (sess.getD i defaultSlot).pilot then newA.getD i ""
          else (fresh.getD i defaultSlot).pilot,
        comment :=
          if newC.getD i "" ≠ (sess.getD i defaultSlot).comment then newC.getD i ""
          else (fresh.getD i defaultSlot).comment } := by
  have h := mergeLoop_getD newA newC sess d fresh i (by rw [hf]; exact hi)
  rw [schedule_save_merge, h, if_pos hi]
  rfl

/-- C10 (witness): with a fresh schedule holding a concurrent edit, the save
keeps the untouched comment from the fresh reload and writes the changed
pilot from the UI. -/
theorem schedule_save_merge_slotwise_witness :
    (schedule_save_merge ["Ana"] ["nota"] [⟨"Beto", "nota"⟩] [⟨"Caro", "zzz"⟩] 1).getD 0
        defaultSlot = ⟨"Ana", "zzz"⟩ := by
  have h := schedule_save_merge_slotwise ["Ana"] ["nota"] [⟨"Beto", "nota"⟩]
    [⟨"Caro", "zzz"⟩] 1 0 rfl (by decide)
  exact h.trans (by decide)

/-! ### Lookup through an in-place team update -/

theorem lookup_setTeam (db : StoreDoc) (n : String) (t : Team) (m : String) :
    (setTeam db n t).lookup m =
      (db.lookup m).map (fun old => if m = n then t else old) := by
  induction db with
  | nil => rfl
  | cons kv rest ih =>
    obtain ⟨k, v⟩ := kv
    simp only [setTeam, List.map_cons] at ih ⊢
    by_cases hmk : m = k
    · subst hmk
      by_cases hkn : m = n <;> simp [List.lookup_cons, hkn]
    · have hbeq : (m == k) = false := beq_eq_false_iff_ne.mpr hmk
      by_cases hkn : k = n
      · subst hkn
        simp [List.lookup_cons, hbeq, ih]
      · simp [List.lookup_cons, hkn, hbeq, ih]

/-- C8: schedule-shape invariant.  The factory's schedule has length exactly
durationHours; the reconcile loop and the schedule-save merge loop keep that
length and update each slot in place from the same index only (no
reordering); the start-hour change leaves every team's schedule untouched. -/
theorem schedule_shape (d : Nat) (p : List PilotRecord) (s : List StintSlot)
    (newA newC : List String) (sess fresh : List StintSlot)
    (store : Option StoreDoc) (db : StoreDoc) (team : String) (hour : Nat)
    (hs : s.length = d) (hf : fresh.length = d) :
    (get_default_team_structure d).horario.length = d ∧
    (reconcile p s d).length = d ∧
    (∀ i, i < d →
      (reconcile p s d).getD i defaultSlot = reconcileSlot p d i (s.getD i defaultSlot)) ∧
    (schedule_save_merge newA newC sess fresh d).length = d ∧
    (∀ i, i < d →
      (schedule_save_merge newA newC sess fresh d).getD i defaultSlot =
        mergeSlot newA newC sess i (fresh.getD i defaultSlot)) ∧
    (∀ name, ((update_start_hour store db team hour).2.1.lookup name).map Team.horario =
      (db.lookup name).map Team.horario) := by
  refine ⟨List.length_replicate .., (reconcile_length p s d).trans hs, ?_,
    (schedule_save_merge_length ..).trans hf, ?_, ?_⟩
  · intro i hi
    rw [reconcile_getD, if_pos hi]
  · intro i hi
    have h := mergeLoop_getD newA newC sess d fresh i (by rw [hf]; exact hi)
    rw [schedule_save_merge, h, if_pos hi]
  · intro name
    cases hlk : db.lookup team with
    | none => simp [update_start_hour, hlk]
    | some t =>
      simp only [update_start_hour, hlk]
      by_cases hne : hour ≠ t.raceConfig.startHour
      · rw [if_pos hne]
        show ((setTeam db team
            { t with raceConfig := { t.raceConfig with startHour := hour } }).lookup
              name).map Team.horario = (db.lookup name).map Team.horario
        rw [lookup_setTeam]
        cases hn : db.lookup name with
        | none => rfl
        | some u =>
          by_cases hnt : name = team
          · subst hnt
            rw [hlk] at hn
            injection hn with hu
            subst hu
            simp
          · simp [hnt]
      · rw [if_neg hne]

/-- C8 (witness): the shape invariant at duration 1 on concrete inputs. -/
theorem schedule_shape_witness :
    (get_default_team_structure 1).horario.length = 1 ∧
    (reconcile [] [defaultSlot] 1).length = 1 ∧
    (schedule_save_merge [] [] [] [defaultSlot] 1).length = 1 := by
  have h := schedule_shape 1 [] [defaultSlot] [] [] [] [defaultSlot] none [] "T" 0 rfl rfl
  exact ⟨h.1, h.2.1, h.2.2.2.1⟩

/-! ### Claim theorems: store-event traces of the write operations -/

/-- C2 (counterexample): the start-hour change performs its save with no
preceding load in the same operation: on a session document holding one team
"T" with start hour 14, changing the hour to 15 yields the store-event trace
`[save]`, whose save has no earlier load. -/
theorem start_hour_save_without_load_cex :
    (update_start_hour (some [("T", get_default_team_structure 3)])
        [("T", get_default_team_structure 3)] "T" 15).2.2 = [StoreEvent.save] ∧
    savesPreceded (update_start_hour (some [("T", get_default_team_structure 3)])
        [("T", get_default_team_structure 3)] "T" 15).2.2 = false := by
  constructor <;> rfl

/-- C2 (amended): only the availability-save and schedule-save handlers
re-load the document immediately before writing (every save in their traces
is preceded by a load).  Team creation, team deletion, and the start-hour
change save the session snapshot without any preceding load in the same
operation; creation and deletion re-load only after their save. -/
theorem write_ops_traces (store : Option StoreDoc) (db : StoreDoc)
    (name team : String) (oname : Option String) (duration hour d : Nat)
    (edited : List PilotRecord) (newA newC : List String) (sess : List StintSlot) :
    savesPreceded (availability_save store team edited d).2.2 = true ∧
    savesPreceded (schedule_save store team newA newC sess d).2.2 = true ∧
    ((create_team store db name duration).2.2 = [] ∨
      (create_team store db name duration).2.2 = [StoreEvent.save, StoreEvent.load]) ∧
    ((delete_team store db oname).2.2 = [] ∨
      (delete_team store db oname).2.2 = [StoreEvent.save, StoreEvent.load]) ∧
    ((update_start_hour store db team hour).2.2 = [] ∨
      (update_start_hour store db team hour).2.2 = [StoreEvent.save]) := by
  refine ⟨?_, ?_, ?_, ?_, ?_⟩
  · simp only [availability_save]
    cases hl : (load_data store).1.lookup team <;>
      simp [hl, savesPreceded, savesPrecededAux]
  · simp only [schedule_save]
    cases hl : (load_data store).1.lookup team <;>
      simp [hl, savesPreceded, savesPrecededAux]
  · simp only [create_team]
    by_cases hc : name ≠ "" ∧ (db.lookup name).isNone
    · rw [if_pos hc]
      exact Or.inr rfl
    · rw [if_neg hc]
      exact Or.inl rfl
  · cases oname with
    | none => exact Or.inl rfl
    | some n =>
      simp only [delete_team]
      by_cases hc : n ≠ "" ∧ db.length > 1
      · rw [if_pos hc]
        exact Or.inr rfl
      · rw [if_neg hc]
        exact Or.inl rfl
  · cases hlk : db.lookup team with
    | none => exact Or.inl (by simp [update_start_hour, hlk])
    | some t =>
      simp only [update_start_hour, hlk]
      by_cases hne : hour ≠ t.raceConfig.startHour
      · rw [if_pos hne]
        exact Or.inr rfl
      · rw [if_neg hne]
        exact Or.inl rfl

/-! ### Claim theorems: validation guards and the persistence round-trip -/

/-- C5: the validation guards abort with no state change.  For every team
mapping, creating a team with an empty name or a name already present
changes neither the store nor the session document and touches the store
not at all; and deleting a team when the session document holds a single
team likewise changes nothing. -/
theorem validation_guards (store : Option StoreDoc) (db : StoreDoc) (name : String)
    (duration : Nat) (oname : Option String) :
    ((name = "" ∨ (db.lookup name).isSome) →
      create_team store db name duration = (store, db, [])) ∧
    (db.length = 1 → delete_team store db oname = (store, db, [])) := by
  constructor
  · intro hbad
    simp only [create_team]
    rw [if_neg]
    rintro ⟨hne, hnone⟩
    rcases hbad with h | h
    · exact hne h
    · rw [Option.isNone_iff_eq_none.mp hnone] at h
      simp at h
  · intro hone
    cases oname with
    | none => rfl
    | some n =>
      simp only [delete_team]
      rw [if_neg]
      rintro ⟨-, hlen⟩
      omega

/-- C5 (witness): duplicate-name creation is rejected without any change on
a two-team document, and deleting the only team of a one-team document is
rejected without any change. -/
theorem validation_guards_witness :
    create_team none
        [("A", get_default_team_structure 3), ("B", get_default_team_structure 3)]
        "A" 3 =
      (none,
        [("A", get_default_team_structure 3), ("B", get_default_team_structure 3)],
        []) ∧
    delete_team none [("A", get_default_team_structure 3)] (some "A") =
      (none, [("A", get_default_team_structure 3)], []) :=
  ⟨(validation_guards none
      [("A", get_default_team_structure 3), ("B", get_default_team_structure 3)]
      "A" 3 (some "A")).1 (Or.inr (by decide)),
    (validation_guards none [("A", get_default_team_structure 3)] "A" 3
      (some "A")).2 rfl⟩

/-- C7: the persistence gateway round-trips.  After any `load`, saving the
loaded document back leaves the store exactly as the load left it; and when
the store already holds a document, the load returns that document and does
not modify the store, so `save(load())` is the identity on the stored
document. -/
theorem save_load_roundtrip (s : Option StoreDoc) :
    save_data (load_data s).2 (load_data s).1 = (load_data s).2 ∧
    (∀ d : StoreDoc, s = some d → (load_data s).1 = d ∧ (load_data s).2 = s) := by
  cases s with
  | none => exact ⟨rfl, fun d hd => by cases hd⟩
  | some d =>
    refine ⟨rfl, fun d' hd => ?_⟩
    injection hd with h
    subst h
    exact ⟨rfl, rfl⟩

/-- C7 (witness): the round-trip on a concrete one-team store. -/
theorem save_load_roundtrip_witness :
    save_data (load_data (some [("T", get_default_team_structure 3)])).2
        (load_data (some [("T", get_default_team_structure 3)])).1 =
      (load_data (some [("T", get_default_team_structure 3)])).2 ∧
    (load_data (some [("T", get_default_team_structure 3)])).1 =
      [("T", get_default_team_structure 3)] :=
  ⟨(save_load_roundtrip (some [("T", get_default_team_structure 3)])).1,
    ((save_load_roundtrip (some [("T", get_default_team_structure 3)])).2 _ rfl).1⟩

/-! ### Claim theorems: effective availability and eligible pilots -/

/-- C4: the code's per-slot availability computation agrees with the spec's
`effectiveAvailability` (start flag at hour 0, finish flag at hour
durationHours-1, hour entry otherwise with false for a missing entry), and
the eligible-pilot list for an hour is exactly the pilots whose effective
availability is true, in the pilot table's row order. -/
theorem effective_availability_eligibles (r : PilotRecord) (i d : Nat)
    (pilots : List PilotRecord) :
    disponible r i d = effectiveAvailabilitySpec r i d ∧
    eligiblePilots i pilots d =
      (pilots.filter (fun q => effectiveAvailabilitySpec q i d)).map
        (fun q => q.name) := by
  refine ⟨rfl, ?_⟩
  by_cases h0 : i = 0
  · subst h0
    simp [eligiblePilots, effectiveAvailabilitySpec]
  · by_cases h1 : i = d - 1
    · subst h1
      simp [eligiblePilots, effectiveAvailabilitySpec, h0]
    · simp [eligiblePilots, effectiveAvailabilitySpec, h0, h1]

/-! ### Claim theorems: the default-team factory -/

theorem lookup_map_self_true : ∀ (l : List Nat) (h : Nat), h ∈ l →
    (l.map (fun x => (x, true))).lookup h = some true := by
  intro l
  induction l with
  | nil =>
    intro h hh
    cases hh
  | cons x t ih =>
    intro h hh
    simp only [List.map_cons, List.lookup_cons]
    by_cases hx : h = x
    · simp [hx]
    · have ht : h ∈ t := by
        cases hh with
        | head => exact absurd rfl hx
        | tail _ hm => exact hm
      have hbeq : (h == x) = false := beq_eq_false_iff_ne.mpr hx
      simp [hbeq, ih h ht]

/-- C9: for every duration in the allowed set, the factory returns start
hour 14 and the given duration, exactly four pilots with distinct default
names, every hourly slot available for every pilot, exactly one default
starter and one default finisher, caps all 0, and a schedule of exactly
`duration` unassigned slots with empty comments; it is total on the set. -/
theorem default_team_factory (d : Nat) (_hd : d ∈ [24, 12, 10, 8, 6, 4, 3]) :
    (get_default_team_structure d).raceConfig = ⟨14, d⟩ ∧
    (get_default_team_structure d).pilots.length = 4 ∧
    ((get_default_team_structure d).pilots.map (fun r => r.name)).Nodup ∧
    (∀ r ∈ (get_default_team_structure d).pilots, ∀ h, h < d →
      r.hourly.lookup h = some true) ∧
    ((get_default_team_structure d).pilots.filter (fun r => r.wantsToStart)).length = 1 ∧
    ((get_default_team_structure d).pilots.filter (fun r => r.wantsToFinish)).length = 1 ∧
    (∀ r ∈ (get_default_team_structure d).pilots, r.cap = 0) ∧
    (get_default_team_structure d).horario.length = d ∧
    (∀ sl ∈ (get_default_team_structure d).horario, sl = ⟨sinAsignar, ""⟩) := by
  refine ⟨rfl, rfl, ?_, ?_, rfl, rfl, ?_, List.length_replicate .., ?_⟩
  · show (["Piloto 1", "Piloto 2", "Piloto 3", "Piloto 4"] : List String).Nodup
    decide
  · intro r hr h hh
    simp only [get_default_team_structure, List.mem_cons, List.not_mem_nil,
      or_false] at hr
    have hhr : r.hourly = (List.range d).map (fun x => (x, true)) := by
      rcases hr with rfl | rfl | rfl | rfl <;> rfl
    rw [hhr]
    exact lookup_map_self_true _ h (List.mem_range.mpr hh)
  · intro r hr
    simp only [get_default_team_structure, List.mem_cons, List.not_mem_nil,
      or_false] at hr
    rcases hr with rfl | rfl | rfl | rfl <;> rfl
  · intro sl hsl
    exact (List.mem_replicate.mp hsl).2

/-- C9 (witness): the factory at the allowed duration 3. -/
theorem default_team_factory_witness :
    (get_default_team_structure 3).raceConfig = ⟨14, 3⟩ ∧
    (get_default_team_structure 3).horario.length = 3 := by
  have h := default_team_factory 3 (by decide)
  exact ⟨h.1, h.2.2.2.2.2.2.2.1⟩

/-! ### Claim theorems: the summary section -/

theorem filterMap_alert_filter (g : String → Option Alert)
    (hg : ∀ n al, g n = some al → al.pilot = n) :
    ∀ (names : List String), names.Nodup → ∀ p : String,
      ((names.filterMap g).filter (fun al => al.pilot = p)) =
        if p ∈ names then (g p).toList else [] := by
  intro names
  induction names with
  | nil =>
    intro _ p
    simp
  | cons n t ih =>
    intro hnd p
    rw [List.nodup_cons] at hnd
    obtain ⟨hnt, hndt⟩ := hnd
    cases hgn : g n with
    | none =>
      simp only [List.filterMap_cons, hgn]
      rw [ih hndt p]
      by_cases hp : p = n
      · rw [if_neg (by rw [hp]; exact hnt),
          if_pos (by rw [hp]; exact List.mem_cons_self n t), hp, hgn]
        rfl
      · by_cases hpt : p ∈ t
        · rw [if_pos hpt, if_pos (List.mem_cons_of_mem _ hpt)]
        · rw [if_neg hpt, if_neg (by simp [hp, hpt])]
    | some al =>
      have hal : al.pilot = n := hg n al hgn
      simp only [List.filterMap_cons, hgn]
      by_cases hp : p = n
      · rw [List.filter_cons, if_pos (by simp [hal, hp]), ih hndt p,
          if_neg (by rw [hp]; exact hnt),
          if_pos (by rw [hp]; exact List.mem_cons_self n t), hp, hgn]
        rfl
      · rw [List.filter_cons,
          if_neg (by simp only [decide_eq_true_eq, hal]; exact fun he => hp he.symm),
          ih hndt p]
        by_cases hpt : p ∈ t
        · rw [if_pos hpt, if_pos (List.mem_cons_of_mem _ hpt)]
        · rw [if_neg hpt, if_neg (by simp [hp, hpt])]

/-- C6: the summary maps each assigned name other than the sentinel to its
occurrence count, and the alert loop emits exactly one alert — naming the
pilot, the cap, and the actual count — for each pilot whose row has a
positive cap below their count, and no alert for anyone else. -/
theorem summary_counts_alerts (a : List String) (pilots : List PilotRecord) :
    (∀ n k, (n, k) ∈ stintCounts a ↔ n ≠ sinAsignar ∧ n ∈ a ∧ k = a.count n) ∧
    (∀ p r, pilots.find? (fun q => q.name = p) = some r →
      (stintAlerts a pilots).filter (fun al => al.pilot = p) =
        if p ≠ sinAsignar ∧ 0 < r.cap ∧ r.cap < a.count p
        then [⟨p, r.cap, a.count p⟩] else []) ∧
    (∀ al ∈ stintAlerts a pilots,
      ∃ r, pilots.find? (fun q => q.name = al.pilot) = some r ∧
        al.cap = r.cap ∧ 0 < r.cap ∧ al.actual = a.count al.pilot ∧
        r.cap < al.actual) := by
  refine ⟨?_, ?_, ?_⟩
  · intro n k
    simp only [stintCounts, List.mem_map, List.mem_filter, List.mem_dedup,
      decide_eq_true_eq, Prod.mk.injEq]
    constructor
    · rintro ⟨m, ⟨hma, hns⟩, rfl, hk⟩
      exact ⟨hns, hma, hk.symm⟩
    · rintro ⟨hns, hma, rfl⟩
      exact ⟨n, ⟨hma, hns⟩, rfl, rfl⟩
  · intro p r hfind
    have hmap : stintAlerts a pilots =
        (a.dedup.filter (fun n => n ≠ sinAsignar)).filterMap
          (fun n => alertOf pilots (n, a.count n)) := by
      rw [stintAlerts, stintCounts, List.filterMap_map]
      rfl
    have hg : ∀ n al, alertOf pilots (n, a.count n) = some al → al.pilot = n := by
      intro n al hal
      rcases hf2 : pilots.find? (fun q => q.name = n) with _ | q
      · simp only [alertOf, hf2] at hal
        exact absurd hal (by simp)
      · simp only [alertOf, hf2] at hal
        by_cases hcond2 : 0 < q.cap ∧ q.cap < a.count n
        · rw [if_pos hcond2] at hal
          injection hal with h
          rw [← h]
        · rw [if_neg hcond2] at hal
          exact absurd hal (by simp)
    have hnd : (a.dedup.filter (fun n => n ≠ sinAsignar)).Nodup :=
      (List.nodup_dedup a).filter _
    rw [hmap, filterMap_alert_filter _ hg _ hnd p]
    by_cases hcond : p ≠ sinAsignar ∧ 0 < r.cap ∧ r.cap < a.count p
    · rw [if_pos hcond]
      have hmem : p ∈ a.dedup.filter (fun n => n ≠ sinAsignar) := by
        rw [List.mem_filter, List.mem_dedup]
        refine ⟨?_, by simpa using hcond.1⟩
        exact List.count_pos_iff.mp (Nat.lt_of_le_of_lt (Nat.zero_le _) hcond.2.2)
      rw [if_pos hmem]
      simp only [alertOf, hfind]
      rw [if_pos ⟨hcond.2.1, hcond.2.2⟩]
      rfl
    · rw [if_neg hcond]
      by_cases hmem : p ∈ a.dedup.filter (fun n => n ≠ sinAsignar)
      · rw [if_pos hmem]
        have hps : p ≠ sinAsignar := by
          have := (List.mem_filter.mp hmem).2
          simpa using this
        have hnc : ¬ (0 < r.cap ∧ r.cap < a.count p) := by
          intro hc
          exact hcond ⟨hps, hc.1, hc.2⟩
        simp only [alertOf, hfind]
        rw [if_neg hnc]
        rfl
      · rw [if_neg hmem]
  · intro al hal
    rw [stintAlerts, List.mem_filterMap] at hal
    obtain ⟨nc, hnc, halo⟩ := hal
    obtain ⟨n, k⟩ := nc
    have hk : n ≠ sinAsignar ∧ n ∈ a ∧ k = a.count n := by
      simp only [stintCounts, List.mem_map, List.mem_filter, List.mem_dedup,
        decide_eq_true_eq, Prod.mk.injEq] at hnc
      obtain ⟨m, ⟨hma, hns⟩, rfl, hkk⟩ := hnc
      exact ⟨hns, hma, hkk.symm⟩
    rcases hf2 : pilots.find? (fun q => q.name = n) with _ | q
    · simp only [alertOf, hf2] at halo
      exact absurd halo (by simp)
    · simp only [alertOf, hf2] at halo
      by_cases hcond : 0 < q.cap ∧ q.cap < k
      · rw [if_pos hcond] at halo
        injection halo with h
        subst h
        exact ⟨q, hf2, rfl, hcond.1, hk.2.2, hcond.2⟩
      · rw [if_neg hcond] at halo
        exact absurd halo (by simp)

/-- C6 (witness): 5 slots assigned to "Sam" with cap 3 yield count 5 and one
alert naming Sam, cap 3, actual 5. -/
theorem summary_counts_alerts_witness :
    ("Sam", 5) ∈ stintCounts (List.replicate 5 "Sam") ∧
    (stintAlerts (List.replicate 5 "Sam") [⟨"Sam", false, false, 3, []⟩]).filter
        (fun al => al.pilot = "Sam") = [⟨"Sam", 3, 5⟩] := by
  have h := summary_counts_alerts (List.replicate 5 "Sam")
    [⟨"Sam", false, false, 3, []⟩]
  constructor
  · exact (h.1 "Sam" 5).mpr (by decide)
  · have h2 := h.2.1 "Sam" ⟨"Sam", false, false, 3, []⟩ (by decide)
    exact h2.trans (by decide)
